import Mathlib

/-!
# Link Shield: the URL risk heuristics of `Js.js`

A shallow embedding of `startScan`, `analyzeLink` and `updateResultUI`.

JavaScript strings are sequences of UTF-16 code units, and `length`,
`startsWith`, `endsWith`, `includes`, `trim` and the (non-unicode-mode)
regular expressions of the source all work on code units.  The URL and the
domain are therefore modelled as `List Nat`, one number per code unit.  The
display texts (labels, statuses, tips, alert messages) are never inspected by
the program; they are kept as `String`.
-/

namespace LinkShield

/-- A JavaScript string value: its UTF-16 code units. -/
abbrev JSString := List Nat

/-- UTF-16 encoding of a string literal of the source. -/
def utf16 (s : String) : JSString :=
  s.data.flatMap fun c =>
    if c.toNat < 0x10000 then [c.toNat]
    else [0xD800 + (c.toNat - 0x10000) / 0x400, 0xDC00 + (c.toNat - 0x10000) % 0x400]

/-! ## String built-ins used by the source -/

/-- The built-in `s.startsWith(p)`. -/
def startsWith (s p : JSString) : Bool := p.isPrefixOf s

/-- The built-in `s.endsWith(p)`. -/
def endsWith (s p : JSString) : Bool := p.isSuffixOf s

/-- The built-in `s.includes(p)`: `p` occurs at some position of `s`. -/
def includes : JSString → JSString → Bool
  | [], p => p.isPrefixOf []
  | c :: s, p => p.isPrefixOf (c :: s) || includes s p

/-- ECMAScript `WhiteSpace` and `LineTerminator` code units: what `trim()`
strips and what `\s` matches. -/
def isWhiteSpace (c : Nat) : Bool :=
  c == 0x09 || c == 0x0A || c == 0x0B || c == 0x0C || c == 0x0D || c == 0x20 ||
  c == 0xA0 || c == 0x1680 || (0x2000 ≤ c && c ≤ 0x200A) ||
  c == 0x2028 || c == 0x2029 || c == 0x202F || c == 0x205F || c == 0x3000 || c == 0xFEFF

/-- ECMAScript `LineTerminator` code units: what `.` does not match. -/
def isLineTerminator (c : Nat) : Bool :=
  c == 0x0A || c == 0x0D || c == 0x2028 || c == 0x2029

/-- The built-in `s.trim()`. -/
def trim (s : JSString) : JSString :=
  ((s.dropWhile isWhiteSpace).reverse.dropWhile isWhiteSpace).reverse

/-- The built-in `s.toLowerCase()` on code units.  `A`-`Z` go to `a`-`z`; the two code
points outside ASCII whose lower case contains an ASCII letter are mapped as
Unicode does (KELVIN SIGN to `k`, LATIN CAPITAL LETTER I WITH DOT ABOVE to `i`
followed by COMBINING DOT ABOVE).  Every other code unit is kept: its lower
case holds no ASCII letter, and the source only searches the result for the
ASCII keywords. -/
def toLowerCase (s : JSString) : JSString :=
  s.flatMap fun c =>
    if 0x41 ≤ c ∧ c ≤ 0x5A then [c + 0x20]
    else if c = 0x212A then [0x6B]
    else if c = 0x130 then [0x69, 0x307]
    else [c]

/-! ## `startScan`: validation -/

/-- The `Canonicalize` of a code unit under the `i` flag (non-unicode mode): the
upper case of `a`-`z`.  A code unit outside ASCII never canonicalizes to an
ASCII one (the standard forbids it), so against the ASCII patterns of the
source it can be left as it is. -/
def canonicalize (c : Nat) : Nat :=
  if 0x61 ≤ c ∧ c ≤ 0x7A then c - 0x20 else c

/-- Match the pattern characters `p`, in sequence and ignoring case, at the
start of the input; the rest of the input on success. -/
def matchChars : List Nat → JSString → Option JSString
  | [], s => some s
  | _ :: _, [] => none
  | p :: ps, c :: s => if canonicalize p = canonicalize c then matchChars ps s else none

/-- The test `/^(https?:\/\/|www\.)/i.test(url)`: `http`, then an optional `s`, then
`://`, or else `www.`, all at the start of the input and ignoring case. -/
def testLinkPrefix (url : JSString) : Bool :=
  (match matchChars (utf16 "http") url with
    | some r =>
      (match matchChars (utf16 "s") r with
        | some r2 => (matchChars (utf16 "://") r2).isSome || (matchChars (utf16 "://") r).isSome
        | none => (matchChars (utf16 "://") r).isSome)
    | none => false)
  || (matchChars (utf16 "www.") url).isSome

/-- The test `/\s/.test(url)`. -/
def testWhiteSpace (url : JSString) : Bool := url.any isWhiteSpace

/-- The alert shown for an empty input. -/
def emptyAlert : String := "يرجى إدخال رابط للفحص."

/-- The alert shown for an input that fails the validation. -/
def invalidAlert : String := "هذا ليس رابطاً صحيحاً! يرجى إدخال رابط صالح لفحصه."

/-! ## `analyzeLink`: the rules -/

/-- One entry of `details`. -/
structure Finding where
  label : String
  status : String
  type : String
deriving DecidableEq, Repr

/-- The locals `score`, `details` and `tips` of `analyzeLink`. -/
structure Analysis where
  score : Int
  details : List Finding
  tips : List String
deriving DecidableEq, Repr

/-- The tip pushed by the protocol check. -/
def httpTip : String := "الموقع لا يشفر بياناتك، لا تدخل أي كلمات مرور أو معلومات بنكية."

/-- The tip pushed by the suspicious-TLD check. -/
def tldTip : String := "المجربات المجانية (مثل .tk) تستخدم بكثرة في عمليات الاحتيال."

/-- The tip pushed by the keyword check, for the keywords found. -/
def keywordTip (foundKeywords : List String) : String :=
  "الرابط يحتوي على كلمات مثل (" ++ ", ".intercalate foundKeywords ++
    ") التي تحاول إيهامك بالحاجة إلى إجراء عاجل."

/-- The tip pushed by the typosquatting check, for one site. -/
def typosquatTip (site : String) : String :=
  "هذا الرابط يحاول تقليد موقع " ++ site ++ " الشهير، احذر من انتحال الشخصية."

/-- The tip pushed by the length check. -/
def lengthTip : String := "الروابط الطويلة والمعقدة تستخدم أحياناً لإخفاء اسم الدومين الحقيقي."

/-- The tip `updateResultUI` pushes when `tips` is empty. -/
def defaultTip : String := "الرابط يبدو سليماً، ولكن دائماً توخ الحذر عند إدخال بياناتك الشخصية."

/-- Step 1, the protocol check. -/
def protocolCheck (url : JSString) (st : Analysis) : Analysis :=
  if startsWith url (utf16 "http://") then
    { score := st.score + 30
      details := st.details ++ [⟨"تشفير الموقع", "خطر (HTTP)", "danger"⟩]
      tips := st.tips ++ [httpTip] }
  else if startsWith url (utf16 "https://") then
    { st with details := st.details ++ [⟨"تشفير الموقع", "آمن (HTTPS)", "safe"⟩] }
  else
    { st with
      score := st.score + 10
      details := st.details ++ [⟨"تشفير الموقع", "غير معروف", "danger"⟩] }

/-- The pattern `:\/\/(.[^/]+)` tried at the start of the input: group 1 on
success.  After `://` the `.` takes one code unit that is not a line
terminator, and `[^/]+` takes the longest run of code units other than `/`,
which must not be empty. -/
def matchDomainHere : JSString → Option JSString
  | a :: b :: c :: d :: e :: rest =>
    if a = 0x3A ∧ b = 0x2F ∧ c = 0x2F ∧ isLineTerminator d = false ∧ e ≠ 0x2F then
      some (d :: e :: rest.takeWhile (fun x => x != 0x2F))
    else none
  | _ => none

/-- The call `url.match(/:\/\/(.[^/]+)/)`: group 1 of the match at the leftmost position
where the pattern matches, `none` for `null`. -/
def domainMatch : JSString → Option JSString
  | [] => none
  | c :: s =>
    match matchDomainHere (c :: s) with
    | some d => some d
    | none => domainMatch s

/-- The local `domain`: `domainMatch ? domainMatch[1] : url`. -/
def domainOf (url : JSString) : JSString :=
  match domainMatch url with
  | some d => d
  | none => url

/-- The local `suspiciousTLDs`. -/
def suspiciousTLDs : List String := [".tk", ".ml", ".ga", ".cf", ".gq", ".xyz", ".top"]

/-- Step 2, the TLD check. -/
def tldCheck (domain : JSString) (st : Analysis) : Analysis :=
  if suspiciousTLDs.any (fun tld => endsWith domain (utf16 tld)) then
    { score := st.score + 25
      details := st.details ++ [⟨"امتداد النطاق", "مشبوه", "danger"⟩]
      tips := st.tips ++ [tldTip] }
  else
    { st with details := st.details ++ [⟨"امتداد النطاق", "عادي", "safe"⟩] }

/-- The local `phishingKeywords`. -/
def phishingKeywords : List String :=
  ["login", "verify", "secure", "bank", "update", "account", "gift", "win", "prize"]

/-- The local `foundKeywords`. -/
def foundKeywords (url : JSString) : List String :=
  phishingKeywords.filter (fun kw => includes (toLowerCase url) (utf16 kw))

/-- Step 3, the keyword check. -/
def keywordCheck (url : JSString) (st : Analysis) : Analysis :=
  if (foundKeywords url).length > 0 then
    { score := st.score + ((foundKeywords url).length : Int) * 15
      details := st.details ++ [⟨"الكلمات المفتاحية", "تحذيرية", "danger"⟩]
      tips := st.tips ++ [keywordTip (foundKeywords url)] }
  else st

/-- The local `commonSites`. -/
def commonSites : List String :=
  ["google", "facebook", "instagram", "paypal", "apple", "microsoft", "amazon"]

/-- The condition tested for one site in step 4. -/
def typosquatCond (domain : JSString) (site : String) : Bool :=
  includes domain (utf16 site) && !startsWith domain (utf16 site) &&
    domain != utf16 site ++ utf16 ".com"

/-- The body of the `forEach` of step 4, for one site. -/
def typosquatStep (domain : JSString) (st : Analysis) (site : String) : Analysis :=
  if typosquatCond domain site then
    { score := st.score + 40
      details := st.details ++ [⟨"تشابه أسماء", "خداع بصري", "danger"⟩]
      tips := st.tips ++ [typosquatTip site] }
  else st

/-- Step 4, the typosquatting check: `commonSites.forEach`. -/
def typosquatCheck (domain : JSString) (st : Analysis) : Analysis :=
  commonSites.foldl (typosquatStep domain) st

/-- Step 5, the length check. -/
def lengthCheck (url : JSString) (st : Analysis) : Analysis :=
  if url.length > 100 then
    { score := st.score + 20
      details := st.details ++ [⟨"طول الرابط", "طويل جداً", "danger"⟩]
      tips := st.tips ++ [lengthTip] }
  else st

/-- The locals of `analyzeLink` after the five rules, before the cap. -/
def runRules (url : JSString) : Analysis :=
  lengthCheck url
    (typosquatCheck (domainOf url)
      (keywordCheck url
        (tldCheck (domainOf url)
          (protocolCheck url ⟨0, [], []⟩))))

/-! ## `updateResultUI` -/

/-- What `updateResultUI` puts on the page. -/
structure ResultUI where
  score : Int
  color : String
  status : String
  dangerActive : Bool
  details : List Finding
  tips : List String
deriving DecidableEq, Repr

/-- The colour and the status label chosen for a score: three `if`s in a row,
each overwriting the one before. -/
def riskDisplay (score : Int) : String × String :=
  let r0 : String × String := ("var(--neon-green)", "آمن جداً")
  let r1 := if score > 30 then ("#ffeb3b", "مخاطرة منخفضة") else r0
  let r2 := if score > 60 then ("#ff9800", "مخاطرة عالية") else r1
  if score > 80 then ("var(--neon-red)", "رابط نصاب مؤكد") else r2

/-- The tips rendered: `if (tips.length === 0) tips.push(...)`. -/
def renderTips (tips : List String) : List String :=
  if tips.length = 0 then tips ++ [defaultTip] else tips

/-- The call `updateResultUI(score, details, tips)`.  The meter offset, the saved copy
in `localStorage` and the reveal timers are display plumbing and left out. -/
def updateResultUI (score : Int) (details : List Finding) (tips : List String) : ResultUI :=
  { score := score
    color := (riskDisplay score).1
    status := (riskDisplay score).2
    dangerActive := decide (score > 70)
    details := details
    tips := renderTips tips }

/-- The call `analyzeLink(url)`: the rules, the cap `Math.min(score, 100)`, then
`updateResultUI`. -/
def analyzeLink (url : JSString) : ResultUI :=
  let st := runRules url
  updateResultUI (min st.score 100) st.details st.tips

/-- What one call of `startScan` ends in. -/
inductive ScanOutcome where
  | alert (msg : String)
  | analysed (url : JSString) (ui : ResultUI)
deriving DecidableEq, Repr

/-- The call `startScan()` on the text of the input field.  The call of `analyzeLink`
sits in a timer callback; the outcome records the call and its result. -/
def startScan (value : JSString) : ScanOutcome :=
  let url := trim value
  if url.isEmpty then .alert emptyAlert
  else
    let isLink := includes url (utf16 ".") || testLinkPrefix url
    let hasSpace := testWhiteSpace url
    if !isLink || hasSpace then .alert invalidAlert
    else .analysed url (analyzeLink url)

/-! ## Contributions and tiers -/

/-- The amount one step adds to `score`. -/
def added (step : Analysis → Analysis) (st : Analysis) : Int :=
  (step st).score - st.score

/-- The amounts the passes of the typosquatting loop add, site by site. -/
def typosquatAdded (domain : JSString) : List String → Analysis → List Int
  | [], _ => []
  | site :: sites, st =>
    added (fun s => typosquatStep domain s site) st ::
      typosquatAdded domain sites (typosquatStep domain st site)

/-- The amounts the rules add to `score` on one URL, in rule order: protocol,
TLD, keywords, one entry per site of the typosquatting loop, length. -/
def contributions (url : JSString) : List Int :=
  let domain := domainOf url
  let s0 : Analysis := ⟨0, [], []⟩
  let s1 := protocolCheck url s0
  let s2 := tldCheck domain s1
  let s3 := keywordCheck url s2
  let s4 := typosquatCheck domain s3
  [added (protocolCheck url) s0, added (tldCheck domain) s1, added (keywordCheck url) s2]
    ++ typosquatAdded domain commonSites s3
    ++ [added (lengthCheck url) s4]

/-- The risk tiers of the specification. -/
inductive RiskTier where
  | VERY_SAFE
  | LOW_RISK
  | HIGH_RISK
  | CONFIRMED_SCAM
deriving DecidableEq, Repr

/-- The colour and the status label of each tier. -/
def RiskTier.display : RiskTier → String × String
  | .VERY_SAFE => ("var(--neon-green)", "آمن جداً")
  | .LOW_RISK => ("#ffeb3b", "مخاطرة منخفضة")
  | .HIGH_RISK => ("#ff9800", "مخاطرة عالية")
  | .CONFIRMED_SCAM => ("var(--neon-red)", "رابط نصاب مؤكد")

/-- The colour and the status label a rendered result carries. -/
def ResultUI.tier (ui : ResultUI) : String × String := (ui.color, ui.status)

/-! ## The domain, as the specification words it -/

/-- The text after the first `://` of the input, `none` when it has no `://`. -/
def afterScheme : JSString → Option JSString
  | [] => none
  | c :: s => if utf16 "://" <+: c :: s then some ((c :: s).drop 3) else afterScheme s

/-- The domain of the specification: the text after the first `://` up to the
next `/` or the end, and the whole input when it has no `://`. -/
def specDomain (url : JSString) : JSString :=
  match afterScheme url with
  | some rest => rest.takeWhile (fun x => x != 0x2F)
  | none => url

/-! ## The validation, as the specification words it -/

/-- Lower case of an ASCII letter; every other code unit is kept. -/
def asciiLower (c : Nat) : Nat :=
  if 0x41 ≤ c ∧ c ≤ 0x5A then c + 0x20 else c

/-- The input starts with `p`, letter case ignored. -/
def startsWithIgnoringCase (s p : JSString) : Bool :=
  (s.take p.length).map asciiLower == p.map asciiLower

/-- The inputs the specification lets through: not empty, no whitespace, and
either a `.` somewhere or one of the prefixes `http://`, `https://`, `www.` in
any letter case. -/
def specAccepts (t : JSString) : Prop :=
  t ≠ [] ∧ (∀ c ∈ t, isWhiteSpace c = false) ∧
    (0x2E ∈ t ∨ startsWithIgnoringCase t (utf16 "http://") = true ∨
      startsWithIgnoringCase t (utf16 "https://") = true ∨
      startsWithIgnoringCase t (utf16 "www.") = true)

/-! ## The tips, rule by rule -/

/-- The tips the rules push on one URL, in rule order: protocol, TLD,
keywords, one per site flagged by the typosquatting loop, length. -/
def ruleTips (url : JSString) : List String :=
  (if startsWith url (utf16 "http://") then [httpTip] else []) ++
  (if suspiciousTLDs.any (fun tld => endsWith (domainOf url) (utf16 tld)) then [tldTip] else []) ++
  (if (foundKeywords url).length > 0 then [keywordTip (foundKeywords url)] else []) ++
  (commonSites.filter (typosquatCond (domainOf url))).map typosquatTip ++
  (if url.length > 100 then [lengthTip] else [])

/-- What holds of `score` and `tips` between the rules: without a tip the
score is 0 or 10 at most, with a tip it is 15 at least, and the default tip is
not among the tips. -/
def TipsInv (st : Analysis) : Prop :=
  (st.tips = [] → 0 ≤ st.score ∧ st.score ≤ 10) ∧
  (st.tips ≠ [] → 15 ≤ st.score) ∧
  defaultTip ∉ st.tips

/-! ## The score formula, as the specification words it -/

/-- Protocol points: 30 for the prefix `http://`, 0 for `https://`, 10 otherwise. -/
def specProtocol (url : JSString) : Int :=
  if utf16 "http://" <+: url then 30 else if utf16 "https://" <+: url then 0 else 10

/-- TLD points: 25 when the domain ends with a listed TLD. -/
def specTld (domain : JSString) : Int :=
  if ∃ tld ∈ [".tk", ".ml", ".ga", ".cf", ".gq", ".xyz", ".top"], utf16 tld <:+ domain
  then 25 else 0

/-- The number of listed terms that occur in the lower-cased URL. -/
def specKeywordCount (url : JSString) : Nat :=
  ["login", "verify", "secure", "bank", "update", "account", "gift", "win", "prize"].countP
    (fun kw => decide (utf16 kw <:+: toLowerCase url))

/-- The number of listed brands the domain contains, does not start with, and
is not equal to with `.com` appended. -/
def specBrandCount (domain : JSString) : Nat :=
  ["google", "facebook", "instagram", "paypal", "apple", "microsoft", "amazon"].countP
    (fun b => decide (utf16 b <:+: domain ∧ ¬ utf16 b <+: domain ∧ domain ≠ utf16 (b ++ ".com")))

/-- Length points: 20 when the URL has more than 100 code units. -/
def specLength (url : JSString) : Int :=
  if url.length > 100 then 20 else 0

/-- The score `min(100, p + t + 15*k + 40*b + l)`. -/
def specScore (url : JSString) : Int :=
  min 100 (specProtocol url + specTld (domainOf url) + 15 * (specKeywordCount url : Int)
    + 40 * (specBrandCount (domainOf url) : Int) + specLength url)

/-! ## Lemmas on the string built-ins -/

theorem utf16_append (a b : String) : utf16 (a ++ b) = utf16 a ++ utf16 b := by
  simp [utf16, String.data_append, List.flatMap_append]

theorem startsWith_iff (s p : JSString) : startsWith s p = true ↔ p <+: s := by
  simp [startsWith]

theorem endsWith_iff (s p : JSString) : endsWith s p = true ↔ p <:+ s := by
  simp [endsWith]

theorem includes_iff (s p : JSString) : includes s p = true ↔ p <:+: s := by
  induction s with
  | nil => cases p <;> simp [includes]
  | cons c s ih =>
    rw [includes, Bool.or_eq_true, ih, List.infix_cons_iff]
    simp

/-! ## Lemmas on the rules -/

theorem protocolCheck_score (url : JSString) (st : Analysis) :
    (protocolCheck url st).score = st.score + specProtocol url := by
  unfold protocolCheck specProtocol
  simp only [startsWith_iff]
  split_ifs <;> simp

theorem tldCheck_score (domain : JSString) (st : Analysis) :
    (tldCheck domain st).score = st.score + specTld domain := by
  unfold tldCheck specTld suspiciousTLDs
  simp only [List.any_eq_true, endsWith_iff]
  split_ifs <;> simp

theorem foundKeywords_length (url : JSString) :
    (foundKeywords url).length = specKeywordCount url := by
  unfold foundKeywords specKeywordCount phishingKeywords
  rw [← List.countP_eq_length_filter]
  congr 1
  funext kw
  rw [Bool.eq_iff_iff]
  simp [includes_iff]

theorem keywordCheck_score (url : JSString) (st : Analysis) :
    (keywordCheck url st).score = st.score + 15 * (specKeywordCount url : Int) := by
  unfold keywordCheck
  rw [foundKeywords_length]
  split_ifs with h
  · simp; ring
  · have : specKeywordCount url = 0 := by omega
    simp [this]

theorem typosquatCond_iff (domain : JSString) (site : String) :
    typosquatCond domain site = true ↔
      (utf16 site <:+: domain ∧ ¬ utf16 site <+: domain ∧ domain ≠ utf16 (site ++ ".com")) := by
  unfold typosquatCond
  rw [Bool.and_eq_true, Bool.and_eq_true, includes_iff, utf16_append, and_assoc]
  simp [← startsWith_iff]

theorem foldl_typosquatStep_score (domain : JSString) (sites : List String) (st : Analysis) :
    (sites.foldl (typosquatStep domain) st).score
      = st.score + 40 * ((sites.countP (typosquatCond domain) : Nat) : Int) := by
  induction sites generalizing st with
  | nil => simp
  | cons site sites ih =>
    rw [List.foldl_cons, ih, List.countP_cons]
    unfold typosquatStep
    split_ifs with h
    · simp; ring
    · simp

theorem typosquatCheck_score (domain : JSString) (st : Analysis) :
    (typosquatCheck domain st).score = st.score + 40 * (specBrandCount domain : Int) := by
  unfold typosquatCheck
  rw [foldl_typosquatStep_score]
  unfold specBrandCount commonSites
  congr 4
  funext site
  rw [Bool.eq_iff_iff, typosquatCond_iff]
  simp

theorem lengthCheck_score (url : JSString) (st : Analysis) :
    (lengthCheck url st).score = st.score + specLength url := by
  unfold lengthCheck specLength
  split_ifs <;> simp

theorem runRules_score (url : JSString) :
    (runRules url).score = specProtocol url + specTld (domainOf url)
      + 15 * (specKeywordCount url : Int) + 40 * (specBrandCount (domainOf url) : Int)
      + specLength url := by
  unfold runRules
  rw [lengthCheck_score, typosquatCheck_score, keywordCheck_score, tldCheck_score,
    protocolCheck_score]
  simp

theorem specProtocol_range (url : JSString) : 0 ≤ specProtocol url ∧ specProtocol url ≤ 30 := by
  unfold specProtocol; split_ifs <;> omega

theorem specTld_range (domain : JSString) : 0 ≤ specTld domain ∧ specTld domain ≤ 25 := by
  unfold specTld; split_ifs <;> omega

theorem specLength_range (url : JSString) : 0 ≤ specLength url ∧ specLength url ≤ 20 := by
  unfold specLength; split_ifs <;> omega

theorem runRules_score_nonneg (url : JSString) : 0 ≤ (runRules url).score := by
  rw [runRules_score]
  have h1 := specProtocol_range url
  have h2 := specTld_range (domainOf url)
  have h3 := specLength_range url
  omega

/-! ## The claims -/

/-- C1: the score `analyzeLink` reports is `min(100, p + t + 15*k + 40*b + l)`
for every URL, with `p` the protocol points, `t` the TLD points, `k` the number
of listed terms in the lower-cased URL, `b` the number of brands the domain
contains without starting with them or being `brand.com`, and `l` the length
points; `http://www.paypa1-login-verify.tk` scores 30 + 25 + 30 = 85. -/
theorem analyzeLink_score_eq_specScore :
    (∀ url : JSString, (analyzeLink url).score = specScore url) ∧
    (analyzeLink (utf16 "http://www.paypa1-login-verify.tk")).score = 30 + 25 + 30 := by
  refine ⟨fun url => ?_, by decide⟩
  show min (runRules url).score 100 = specScore url
  rw [runRules_score, specScore, min_comm]

theorem typosquatAdded_sum (domain : JSString) (sites : List String) (st : Analysis) :
    (typosquatAdded domain sites st).sum
      = (sites.foldl (typosquatStep domain) st).score - st.score := by
  induction sites generalizing st with
  | nil => simp [typosquatAdded]
  | cons site sites ih =>
    rw [typosquatAdded, List.sum_cons, ih, List.foldl_cons, added]
    ring

theorem contributions_sum (url : JSString) :
    (contributions url).sum = (runRules url).score := by
  simp only [contributions, runRules, added, typosquatCheck, List.sum_append, List.sum_cons,
    List.sum_nil, typosquatAdded_sum]
  ring

/-- C2: the score `analyzeLink` hands to the display lies in `[0, 100]` and is
`min(max(T, 0), 100)`, where `T` is the sum of the amounts the rules added. -/
theorem analyzeLink_score_clamped (url : JSString) :
    0 ≤ (analyzeLink url).score ∧ (analyzeLink url).score ≤ 100 ∧
    (analyzeLink url).score = min (max (contributions url).sum 0) 100 := by
  have h := runRules_score_nonneg url
  rw [contributions_sum]
  show 0 ≤ min (runRules url).score 100 ∧ min (runRules url).score 100 ≤ 100 ∧
    min (runRules url).score 100 = min (max (runRules url).score 0) 100
  rw [max_eq_left h]
  omega

theorem riskDisplay_low (s : Int) (h : s ≤ 30) : riskDisplay s = RiskTier.VERY_SAFE.display := by
  unfold riskDisplay RiskTier.display
  simp only
  rw [if_neg (by omega), if_neg (by omega), if_neg (by omega)]

theorem riskDisplay_mid (s : Int) (h : 30 < s) (h2 : s ≤ 60) :
    riskDisplay s = RiskTier.LOW_RISK.display := by
  unfold riskDisplay RiskTier.display
  simp only
  rw [if_neg (by omega), if_neg (by omega), if_pos (by omega)]

theorem riskDisplay_high (s : Int) (h : 60 < s) (h2 : s ≤ 80) :
    riskDisplay s = RiskTier.HIGH_RISK.display := by
  unfold riskDisplay RiskTier.display
  simp only
  rw [if_neg (by omega), if_pos (by omega)]

theorem riskDisplay_scam (s : Int) (h : 80 < s) :
    riskDisplay s = RiskTier.CONFIRMED_SCAM.display := by
  unfold riskDisplay RiskTier.display
  simp only
  rw [if_pos (by omega)]

theorem display_injective (a b : RiskTier) (h : a.display = b.display) : a = b := by
  cases a <;> cases b <;> first | rfl | (exact absurd h (by decide))

/-- C3: for every integer score `s` in `[0, 100]` the tier `updateResultUI`
shows (status label and colour) is VERY_SAFE when `s ≤ 30`, LOW_RISK when
`30 < s ≤ 60`, HIGH_RISK when `60 < s ≤ 80`, CONFIRMED_SCAM when `s > 80`, and
exactly one tier is shown. -/
theorem updateResultUI_tier (s : Int) (details : List Finding) (tips : List String)
    (h0 : 0 ≤ s) (h100 : s ≤ 100) :
    (s ≤ 30 → (updateResultUI s details tips).tier = RiskTier.VERY_SAFE.display) ∧
    (30 < s ∧ s ≤ 60 → (updateResultUI s details tips).tier = RiskTier.LOW_RISK.display) ∧
    (60 < s ∧ s ≤ 80 → (updateResultUI s details tips).tier = RiskTier.HIGH_RISK.display) ∧
    (80 < s → (updateResultUI s details tips).tier = RiskTier.CONFIRMED_SCAM.display) ∧
    (∃! t : RiskTier, (updateResultUI s details tips).tier = t.display) := by
  have ht : (updateResultUI s details tips).tier = riskDisplay s := rfl
  rw [ht]
  refine ⟨riskDisplay_low s, fun h => riskDisplay_mid s h.1 h.2,
    fun h => riskDisplay_high s h.1 h.2, riskDisplay_scam s, ?_⟩
  have hex : ∃ t : RiskTier, riskDisplay s = t.display := by
    by_cases h1 : s ≤ 30
    · exact ⟨_, riskDisplay_low s h1⟩
    · by_cases h2 : s ≤ 60
      · exact ⟨_, riskDisplay_mid s (by omega) h2⟩
      · by_cases h3 : s ≤ 80
        · exact ⟨_, riskDisplay_high s (by omega) h3⟩
        · exact ⟨_, riskDisplay_scam s (by omega)⟩
  obtain ⟨t, h⟩ := hex
  exact ⟨t, h, fun t2 h2 => display_injective _ _ (h2.symm.trans h)⟩

/-- C3 at the score 50: LOW_RISK. -/
theorem updateResultUI_tier_witness :
    (0 : Int) ≤ 50 ∧ (50 : Int) ≤ 100 ∧
    ((50 : Int) ≤ 30 → (updateResultUI 50 [] []).tier = RiskTier.VERY_SAFE.display) ∧
    ((30 : Int) < 50 ∧ (50 : Int) ≤ 60 →
      (updateResultUI 50 [] []).tier = RiskTier.LOW_RISK.display) ∧
    ((60 : Int) < 50 ∧ (50 : Int) ≤ 80 →
      (updateResultUI 50 [] []).tier = RiskTier.HIGH_RISK.display) ∧
    ((80 : Int) < 50 → (updateResultUI 50 [] []).tier = RiskTier.CONFIRMED_SCAM.display) ∧
    (∃! t : RiskTier, (updateResultUI 50 [] []).tier = t.display) :=
  ⟨by decide, by decide, updateResultUI_tier 50 [] [] (by decide) (by decide)⟩

/-! ### Domain extraction -/

theorem utf16_scheme : utf16 "://" = [0x3A, 0x2F, 0x2F] := by decide

theorem matchDomainHere_none_of_no_scheme (s : JSString) (h : ¬ utf16 "://" <+: s) :
    matchDomainHere s = none := by
  rw [utf16_scheme] at h
  match s with
  | [] => rfl
  | [_] => rfl
  | [_, _] => rfl
  | [_, _, _] => rfl
  | [_, _, _, _] => rfl
  | a :: b :: c :: d :: e :: rest =>
    simp only [matchDomainHere]
    rw [if_neg]
    rintro ⟨rfl, rfl, rfl, -, -⟩
    exact h ⟨d :: e :: rest, rfl⟩

theorem afterScheme_none_iff (url : JSString) :
    afterScheme url = none ↔ ¬ utf16 "://" <:+: url := by
  induction url with
  | nil => simp [afterScheme, utf16_scheme]
  | cons c s ih =>
    rw [afterScheme, List.infix_cons_iff]
    split_ifs with h
    · simp [h]
    · simp [ih, h]

theorem domainMatch_none_of_no_scheme (url : JSString) (h : ¬ utf16 "://" <:+: url) :
    domainMatch url = none := by
  induction url with
  | nil => rfl
  | cons c s ih =>
    rw [List.infix_cons_iff, not_or] at h
    rw [domainMatch, matchDomainHere_none_of_no_scheme _ h.1]
    exact ih h.2

theorem domainMatch_of_afterScheme (url : JSString) (d e : Nat) (rest : JSString)
    (h : afterScheme url = some (d :: e :: rest)) (hd : isLineTerminator d = false)
    (he : e ≠ 0x2F) :
    domainMatch url = some (d :: e :: rest.takeWhile (fun x => x != 0x2F)) := by
  induction url with
  | nil => simp [afterScheme] at h
  | cons c s ih =>
    rw [afterScheme] at h
    split_ifs at h with hp
    · rw [utf16_scheme] at hp
      obtain ⟨t, ht⟩ := hp
      have hcs : c :: s = 0x3A :: 0x2F :: 0x2F :: d :: e :: rest := by
        rw [← ht] at h ⊢
        simp only [List.cons_append, List.nil_append, List.drop_succ_cons, List.drop_zero,
          Option.some.injEq] at h
        rw [h]
        rfl
      rw [domainMatch, hcs]
      simp [matchDomainHere, hd, he]
    · rw [domainMatch, matchDomainHere_none_of_no_scheme _ hp]
      exact ih h

theorem matchDomainHere_some (s x : JSString) (h : matchDomainHere s = some x) :
    ∃ d e post, s = utf16 "://" ++ d :: e :: post ∧ e ≠ 0x2F := by
  match s with
  | [] => simp [matchDomainHere] at h
  | [_] => simp [matchDomainHere] at h
  | [_, _] => simp [matchDomainHere] at h
  | [_, _, _] => simp [matchDomainHere] at h
  | [_, _, _, _] => simp [matchDomainHere] at h
  | a :: b :: c :: d :: e :: rest =>
    simp only [matchDomainHere] at h
    split_ifs at h with hc
    obtain ⟨rfl, rfl, rfl, -, he⟩ := hc
    exact ⟨d, e, rest, by rw [utf16_scheme]; rfl, he⟩

theorem domainMatch_none_of_short_hosts (url : JSString)
    (h : ∀ pre d e post, url = pre ++ utf16 "://" ++ d :: e :: post → e = 0x2F) :
    domainMatch url = none := by
  induction url with
  | nil => rfl
  | cons c s ih =>
    rw [domainMatch]
    cases hm : matchDomainHere (c :: s) with
    | some x =>
      obtain ⟨d, e, post, hs, he⟩ := matchDomainHere_some _ _ hm
      exact absurd (h [] d e post (by simpa using hs)) he
    | none =>
      exact ih fun pre d e post hs => h (c :: pre) d e post (by simp [hs])

theorem not_lineTerminator_of_not_whiteSpace (c : Nat) (h : isWhiteSpace c = false) :
    isLineTerminator c = false := by
  unfold isWhiteSpace at h
  unfold isLineTerminator
  simp only [Bool.or_eq_false_iff] at h ⊢
  tauto

theorem afterScheme_suffix (url rest : JSString) (h : afterScheme url = some rest) :
    rest <:+ url := by
  induction url with
  | nil => simp [afterScheme] at h
  | cons c s ih =>
    rw [afterScheme] at h
    split_ifs at h
    · simp only [Option.some.injEq] at h
      rw [← h]
      exact List.drop_suffix _ _
    · exact (ih h).trans (List.suffix_cons c s)

/-- C4, as the code has it: for every URL without whitespace, the domain is the
whole URL when it has no `://`; it is the text after the first `://` up to the
next `/` (or the end) when that text starts with two characters other than
`/`; and it is the whole URL when no `://` is followed by a character and then
a character other than `/`. -/
theorem domainOf_cases (url : JSString) (hws : testWhiteSpace url = false) :
    (¬ utf16 "://" <:+: url → domainOf url = url) ∧
    (∀ d e rest, afterScheme url = some (d :: e :: rest) → d ≠ 0x2F → e ≠ 0x2F →
      domainOf url = specDomain url) ∧
    ((∀ pre d e post, url = pre ++ utf16 "://" ++ d :: e :: post → e = 0x2F) →
      domainOf url = url) := by
  refine ⟨fun h => ?_, fun d e rest h hd he => ?_, fun h => ?_⟩
  · rw [domainOf, domainMatch_none_of_no_scheme url h]
  · have hmem : d ∈ url := (afterScheme_suffix url _ h).subset (List.mem_cons_self d _)
    have hdw : isWhiteSpace d = false := by
      unfold testWhiteSpace at hws
      rw [List.any_eq_false] at hws
      simpa using hws d hmem
    rw [domainOf, domainMatch_of_afterScheme url d e rest h
      (not_lineTerminator_of_not_whiteSpace d hdw) he, specDomain, h]
    simp [List.takeWhile_cons, hd, he]
  · rw [domainOf, domainMatch_none_of_short_hosts url h]

/-- C4 at `http://ab/c`: the domain is `ab`. -/
theorem domainOf_cases_witness :
    testWhiteSpace (utf16 "http://ab/c") = false ∧
    afterScheme (utf16 "http://ab/c") = some (utf16 "ab/c") ∧
    domainOf (utf16 "http://ab/c") = utf16 "ab" ∧
    specDomain (utf16 "http://ab/c") = utf16 "ab" :=
  ⟨by decide, by decide,
    ((domainOf_cases (utf16 "http://ab/c") (by decide)).2.1 0x61 0x62 (utf16 "/c")
      (by decide) (by decide) (by decide)).trans (by decide), by decide⟩

/-- C4 fails as stated: `http://a` passes the validation and contains `://`,
the text after it is `a`, yet the domain `analyzeLink` uses is the whole URL. -/
theorem domainOf_single_char_host :
    startScan (utf16 "http://a") = .analysed (utf16 "http://a") (analyzeLink (utf16 "http://a")) ∧
    includes (utf16 "http://a") (utf16 "://") = true ∧
    specDomain (utf16 "http://a") = utf16 "a" ∧
    domainOf (utf16 "http://a") = utf16 "http://a" ∧
    domainOf (utf16 "http://a") ≠ specDomain (utf16 "http://a") := by
  refine ⟨by decide, by decide, by decide, by decide, by decide⟩

/-! ### Validation -/

theorem includes_singleton (s : JSString) (c : Nat) : includes s [c] = true ↔ c ∈ s := by
  induction s with
  | nil => simp [includes]
  | cons x s ih =>
    rw [includes, Bool.or_eq_true, ih]
    simp [List.isPrefixOf]

theorem matchChars_append (p q s : JSString) :
    matchChars (p ++ q) s = (matchChars p s).bind (matchChars q) := by
  induction p generalizing s with
  | nil => simp [matchChars]
  | cons a p ih =>
    cases s with
    | nil => simp [matchChars]
    | cons c s =>
      simp only [List.cons_append, matchChars]
      split_ifs
      · exact ih s
      · rfl

theorem canonicalize_eq_iff (a b : Nat) :
    canonicalize a = canonicalize b ↔ asciiLower a = asciiLower b := by
  unfold canonicalize asciiLower
  split_ifs <;> omega

theorem matchChars_isSome (p s : JSString) :
    (matchChars p s).isSome = true ↔ startsWithIgnoringCase s p = true := by
  unfold startsWithIgnoringCase
  induction p generalizing s with
  | nil => simp [matchChars]
  | cons a p ih =>
    cases s with
    | nil => simp [matchChars]
    | cons c s =>
      simp only [matchChars, List.length_cons, List.take_succ_cons, List.map_cons, beq_iff_eq,
        List.cons.injEq]
      split_ifs with h
      · rw [ih s, beq_iff_eq]
        rw [canonicalize_eq_iff] at h
        simp [h]
      · rw [canonicalize_eq_iff] at h
        have h3 : ¬ asciiLower c = asciiLower a := fun h2 => h h2.symm
        simp [h3]

theorem testLinkPrefix_eq (url : JSString) :
    testLinkPrefix url =
      ((matchChars (utf16 "http://") url).isSome || (matchChars (utf16 "https://") url).isSome
        || (matchChars (utf16 "www.") url).isSome) := by
  have e1 : utf16 "http://" = utf16 "http" ++ utf16 "://" := by decide
  have e2 : utf16 "https://" = utf16 "http" ++ (utf16 "s" ++ utf16 "://") := by decide
  rw [e1, e2, matchChars_append, matchChars_append, testLinkPrefix]
  cases h1 : matchChars (utf16 "http") url with
  | none => simp
  | some r =>
    simp only [Option.some_bind]
    rw [matchChars_append]
    cases h2 : matchChars (utf16 "s") r <;> simp [Bool.or_comm]

theorem testLinkPrefix_iff (url : JSString) :
    testLinkPrefix url = true ↔
      (startsWithIgnoringCase url (utf16 "http://") = true ∨
        startsWithIgnoringCase url (utf16 "https://") = true ∨
        startsWithIgnoringCase url (utf16 "www.") = true) := by
  rw [testLinkPrefix_eq, Bool.or_eq_true, Bool.or_eq_true, matchChars_isSome, matchChars_isSome,
    matchChars_isSome, or_assoc]

theorem startScan_analysed_iff (value : JSString) :
    startScan value = .analysed (trim value) (analyzeLink (trim value)) ↔
      specAccepts (trim value) := by
  have hdot : utf16 "." = [0x2E] := by decide
  unfold startScan specAccepts testWhiteSpace
  simp only
  rw [← testLinkPrefix_iff, ← includes_singleton, ← hdot]
  cases hu : trim value with
  | nil => simp
  | cons c s =>
    simp only [List.isEmpty_cons, Bool.false_eq_true, if_false]
    split_ifs with h
    · simp only [Bool.or_eq_true, Bool.not_eq_true', Bool.or_eq_false_iff] at h
      simp only [reduceCtorEq, false_iff, not_and]
      intro _ hw hl
      rcases h with h | h
      · rcases hl with hl | hl
        · rw [h.1] at hl; exact absurd hl (by decide)
        · rw [h.2] at hl; exact absurd hl (by decide)
      · rw [List.any_eq_true] at h
        obtain ⟨x, hx, hxw⟩ := h
        rw [hw x hx] at hxw
        exact absurd hxw (by decide)
    · simp only [Bool.or_eq_true, Bool.not_eq_true', Bool.or_eq_false_iff, not_or, not_and,
        Bool.not_eq_false, Bool.not_eq_true] at h
      simp only [true_iff]
      refine ⟨by simp, ?_, ?_⟩
      · have := h.2
        rw [List.any_eq_false] at this
        intro x hx
        simpa using this x hx
      · by_cases hi : includes (c :: s) (utf16 ".") = true
        · exact Or.inl hi
        · exact Or.inr (h.1 (by simpa using hi))

/-- C5: `startScan` goes on to analyse the trimmed input exactly when it is not
empty, has no whitespace, and has a `.` or starts, in any letter case, with
`http://`, `https://` or `www.`; every other input ends in an alert, without a
call of `analyzeLink`. -/
theorem startScan_accepts_iff (value : JSString) :
    (startScan value = .analysed (trim value) (analyzeLink (trim value)) ↔
      specAccepts (trim value)) ∧
    (¬ specAccepts (trim value) → ∃ msg, startScan value = .alert msg) := by
  refine ⟨startScan_analysed_iff value, fun h => ?_⟩
  rw [← startScan_analysed_iff] at h
  unfold startScan at h ⊢
  simp only at h ⊢
  split_ifs at h ⊢ with h1 h2
  · exact ⟨_, rfl⟩
  · exact ⟨_, rfl⟩
  · exact absurd rfl h

/-! ### Rejections -/

/-- C6, as the code has it: an input rejected for whitespace and an input
rejected for not looking like a URL end in one and the same alert; only the
alert for an empty input differs from it. -/
theorem startScan_rejection_shared (value : JSString) (hne : trim value ≠ [])
    (hrej : testWhiteSpace (trim value) = true ∨
      (includes (trim value) (utf16 ".") = false ∧ testLinkPrefix (trim value) = false)) :
    startScan value = .alert invalidAlert ∧ startScan value ≠ startScan [] := by
  have h : startScan value = .alert invalidAlert := by
    unfold startScan
    simp only
    rw [if_neg (by simpa using hne), if_pos]
    rcases hrej with h | ⟨h1, h2⟩
    · simp [h]
    · simp [h1, h2]
  refine ⟨h, ?_⟩
  rw [h]
  decide

/-- C6 at `not a url`, rejected for its spaces. -/
theorem startScan_rejection_shared_witness :
    trim (utf16 "not a url") ≠ [] ∧ testWhiteSpace (trim (utf16 "not a url")) = true ∧
    startScan (utf16 "not a url") = .alert invalidAlert ∧
    startScan (utf16 "not a url") ≠ startScan [] :=
  ⟨by decide, by decide,
    startScan_rejection_shared (utf16 "not a url") (by decide) (Or.inl (by decide))⟩

/-- C6 fails as stated: `not a url` is rejected for whitespace, `plaintext` for
not looking like a URL, and the two rejections are equal. -/
theorem startScan_rejections_equal :
    testWhiteSpace (trim (utf16 "not a url")) = true ∧
    testWhiteSpace (trim (utf16 "plaintext")) = false ∧
    includes (trim (utf16 "plaintext")) (utf16 ".") = false ∧
    testLinkPrefix (trim (utf16 "plaintext")) = false ∧
    startScan (utf16 "not a url") = startScan (utf16 "plaintext") := by
  refine ⟨by decide, by decide, by decide, by decide, by decide⟩

/-! ### Tips -/

theorem keywordTip_ne_defaultTip (found : List String) : keywordTip found ≠ defaultTip := by
  intro h
  have h2 := congrArg (fun s => s.data.take 9) h
  simp only [keywordTip, String.data_append] at h2
  rw [List.append_assoc, List.take_append_of_le_length (by decide)] at h2
  exact absurd h2 (by decide)

theorem typosquatTip_ne_defaultTip (site : String) : typosquatTip site ≠ defaultTip := by
  intro h
  have h2 := congrArg (fun s => s.data.take 1) h
  simp only [typosquatTip, String.data_append] at h2
  rw [List.append_assoc, List.take_append_of_le_length (by decide)] at h2
  exact absurd h2 (by decide)

theorem tipsInv_protocolCheck (url : JSString) : TipsInv (protocolCheck url ⟨0, [], []⟩) := by
  unfold protocolCheck TipsInv
  split_ifs
  · refine ⟨by simp, by simp, ?_⟩
    simp only [List.nil_append, List.mem_singleton]
    decide
  · simp
  · simp

theorem tipsInv_push (st : Analysis) (n : Int) (details : List Finding) (tip : String)
    (h : TipsInv st) (hn : 15 ≤ n) (ht : tip ≠ defaultTip) :
    TipsInv ⟨st.score + n, details, st.tips ++ [tip]⟩ := by
  obtain ⟨h1, h2, h3⟩ := h
  have h0 : 0 ≤ st.score := by
    by_cases he : st.tips = []
    · exact (h1 he).1
    · have := h2 he; omega
  refine ⟨by simp, fun _ => ?_, ?_⟩
  · show 15 ≤ st.score + n
    omega
  · simp only [List.mem_append, List.mem_singleton, not_or]
    exact ⟨h3, fun e => ht e.symm⟩

theorem tipsInv_tldCheck (domain : JSString) (st : Analysis) (h : TipsInv st) :
    TipsInv (tldCheck domain st) := by
  unfold tldCheck
  split_ifs
  · exact tipsInv_push st 25 _ tldTip h (by omega) (by decide)
  · exact h

theorem tipsInv_keywordCheck (url : JSString) (st : Analysis) (h : TipsInv st) :
    TipsInv (keywordCheck url st) := by
  unfold keywordCheck
  split_ifs with hk
  · exact tipsInv_push st _ _ _ h (by omega) (keywordTip_ne_defaultTip _)
  · exact h

theorem tipsInv_typosquatStep (domain : JSString) (st : Analysis) (site : String)
    (h : TipsInv st) : TipsInv (typosquatStep domain st site) := by
  unfold typosquatStep
  split_ifs
  · exact tipsInv_push st 40 _ _ h (by omega) (typosquatTip_ne_defaultTip site)
  · exact h

theorem tipsInv_typosquatCheck (domain : JSString) (st : Analysis) (h : TipsInv st) :
    TipsInv (typosquatCheck domain st) := by
  unfold typosquatCheck
  generalize commonSites = sites
  induction sites generalizing st with
  | nil => exact h
  | cons site sites ih => exact ih _ (tipsInv_typosquatStep domain st site h)

theorem tipsInv_lengthCheck (url : JSString) (st : Analysis) (h : TipsInv st) :
    TipsInv (lengthCheck url st) := by
  unfold lengthCheck
  split_ifs
  · exact tipsInv_push st 20 _ lengthTip h (by omega) (by decide)
  · exact h

theorem tipsInv_runRules (url : JSString) : TipsInv (runRules url) :=
  tipsInv_lengthCheck _ _ (tipsInv_typosquatCheck _ _ (tipsInv_keywordCheck _ _
    (tipsInv_tldCheck _ _ (tipsInv_protocolCheck url))))

theorem foldl_typosquatStep_tips (domain : JSString) (sites : List String) (st : Analysis) :
    (sites.foldl (typosquatStep domain) st).tips
      = st.tips ++ (sites.filter (typosquatCond domain)).map typosquatTip := by
  induction sites generalizing st with
  | nil => simp
  | cons site sites ih =>
    rw [List.foldl_cons, ih, List.filter_cons]
    unfold typosquatStep
    split_ifs with h <;> simp

theorem protocolCheck_tips (url : JSString) (st : Analysis) :
    (protocolCheck url st).tips
      = st.tips ++ (if startsWith url (utf16 "http://") then [httpTip] else []) := by
  unfold protocolCheck
  split_ifs <;> simp

theorem tldCheck_tips (domain : JSString) (st : Analysis) :
    (tldCheck domain st).tips
      = st.tips ++ (if suspiciousTLDs.any (fun tld => endsWith domain (utf16 tld))
          then [tldTip] else []) := by
  unfold tldCheck
  split_ifs <;> simp

theorem keywordCheck_tips (url : JSString) (st : Analysis) :
    (keywordCheck url st).tips
      = st.tips ++ (if (foundKeywords url).length > 0
          then [keywordTip (foundKeywords url)] else []) := by
  unfold keywordCheck
  split_ifs <;> simp

theorem lengthCheck_tips (url : JSString) (st : Analysis) :
    (lengthCheck url st).tips
      = st.tips ++ (if url.length > 100 then [lengthTip] else []) := by
  unfold lengthCheck
  split_ifs <;> simp

theorem runRules_tips (url : JSString) : (runRules url).tips = ruleTips url := by
  unfold runRules ruleTips typosquatCheck
  rw [lengthCheck_tips, foldl_typosquatStep_tips, keywordCheck_tips, tldCheck_tips,
    protocolCheck_tips]
  rfl

theorem renderTips_nil : renderTips [] = [defaultTip] := rfl

theorem renderTips_of_ne_nil (tips : List String) (h : tips ≠ []) : renderTips tips = tips := by
  unfold renderTips
  rw [if_neg]
  simpa using h

/-- C7: the tips `updateResultUI` renders for an analysed URL are never empty;
when no rule pushed a tip they are the one default tip, and when a rule pushed
a tip they are the tips of the rules, in rule order, the default tip not among
them. -/
theorem analyzeLink_tips (url : JSString) :
    (analyzeLink url).tips ≠ [] ∧
    (runRules url).tips = ruleTips url ∧
    (ruleTips url = [] → (analyzeLink url).tips = [defaultTip]) ∧
    (ruleTips url ≠ [] →
      (analyzeLink url).tips = ruleTips url ∧ defaultTip ∉ (analyzeLink url).tips) := by
  have ht : (analyzeLink url).tips = renderTips (runRules url).tips := rfl
  have hinv := tipsInv_runRules url
  rw [ht, runRules_tips] at *
  refine ⟨?_, rfl, fun h => by rw [h, renderTips_nil], fun h => ?_⟩
  · by_cases h : ruleTips url = []
    · rw [h, renderTips_nil]; simp
    · rwa [renderTips_of_ne_nil _ h]
  · rw [renderTips_of_ne_nil _ h]
    exact ⟨rfl, by simpa [runRules_tips] using hinv.2.2⟩

/-! ### Contributions -/

theorem specProtocol_values (url : JSString) :
    specProtocol url = 0 ∨ specProtocol url = 10 ∨ specProtocol url = 30 := by
  unfold specProtocol; split_ifs <;> simp

theorem specTld_values (domain : JSString) : specTld domain = 0 ∨ specTld domain = 25 := by
  unfold specTld; split_ifs <;> simp

theorem specLength_values (url : JSString) : specLength url = 0 ∨ specLength url = 20 := by
  unfold specLength; split_ifs <;> simp

/-- C8, as the code has it: every rule firing adds a non-negative integer.  The
protocol rule adds 0, 10 or 30, the TLD rule 0 or 25, one typosquatting pass
for one site 0 or 40, the length rule 0 or 20, each of them in `[0, 100]`; the
keyword rule adds 15 for each of the at most 9 listed keywords found, an
integer in `[0, 135]`; no rule subtracts. -/
theorem rule_added_bounds (url : JSString) (st : Analysis) (site : String) :
    ((added (protocolCheck url) st = 0 ∨ added (protocolCheck url) st = 10 ∨
        added (protocolCheck url) st = 30) ∧
      0 ≤ added (protocolCheck url) st ∧ added (protocolCheck url) st ≤ 100) ∧
    ((added (tldCheck (domainOf url)) st = 0 ∨ added (tldCheck (domainOf url)) st = 25) ∧
      0 ≤ added (tldCheck (domainOf url)) st ∧ added (tldCheck (domainOf url)) st ≤ 100) ∧
    (added (keywordCheck url) st = 15 * ((foundKeywords url).length : Int) ∧
      (foundKeywords url).length ≤ 9 ∧
      0 ≤ added (keywordCheck url) st ∧ added (keywordCheck url) st ≤ 135) ∧
    ((added (fun s => typosquatStep (domainOf url) s site) st = 0 ∨
        added (fun s => typosquatStep (domainOf url) s site) st = 40) ∧
      0 ≤ added (fun s => typosquatStep (domainOf url) s site) st ∧
      added (fun s => typosquatStep (domainOf url) s site) st ≤ 100) ∧
    ((added (lengthCheck url) st = 0 ∨ added (lengthCheck url) st = 20) ∧
      0 ≤ added (lengthCheck url) st ∧ added (lengthCheck url) st ≤ 100) := by
  have hp := specProtocol_values url
  have ht := specTld_values (domainOf url)
  have hl := specLength_values url
  have hk : (foundKeywords url).length ≤ 9 := by
    unfold foundKeywords
    exact (List.length_filter_le _ _).trans (by decide)
  have hs : added (fun s => typosquatStep (domainOf url) s site) st = 0 ∨
      added (fun s => typosquatStep (domainOf url) s site) st = 40 := by
    unfold added typosquatStep
    split_ifs
    · right; simp
    · left; simp
  have ep : added (protocolCheck url) st = specProtocol url := by
    unfold added; rw [protocolCheck_score]; ring
  have et : added (tldCheck (domainOf url)) st = specTld (domainOf url) := by
    unfold added; rw [tldCheck_score]; ring
  have ek : added (keywordCheck url) st = 15 * ((foundKeywords url).length : Int) := by
    unfold added; rw [keywordCheck_score, ← foundKeywords_length]; ring
  have el : added (lengthCheck url) st = specLength url := by
    unfold added; rw [lengthCheck_score]; ring
  rw [ep, et, ek, el]
  refine ⟨⟨hp, by omega, by omega⟩, ⟨ht, by omega, by omega⟩, ⟨rfl, hk, by omega, by omega⟩,
    ⟨hs, by omega, by omega⟩, ⟨hl, by omega, by omega⟩⟩

/-- C8 fails as stated: on a URL that passes the validation and holds seven of
the listed keywords, the keyword rule adds 105. -/
theorem keywordCheck_adds_over_100 :
    startScan (utf16 "loginverifysecurebankupdateaccountgift.com")
      = .analysed (utf16 "loginverifysecurebankupdateaccountgift.com")
          (analyzeLink (utf16 "loginverifysecurebankupdateaccountgift.com")) ∧
    added (keywordCheck (utf16 "loginverifysecurebankupdateaccountgift.com")) ⟨0, [], []⟩ = 105 ∧
    ¬ (added (keywordCheck (utf16 "loginverifysecurebankupdateaccountgift.com")) ⟨0, [], []⟩
        ≤ 100) := by
  refine ⟨by decide, by decide, by decide⟩

/-! ### Typosquatting -/

/-- C9: for every domain and every site, the condition `analyzeLink` tests
(contains the site, does not start with it, is not the site followed by
`.com`) holds exactly when the domain contains the site and does not start
with it; `www.google.com` is flagged for `google` and scores 40. -/
theorem typosquatCond_com_test_redundant :
    (∀ (domain : JSString) (site : String),
      typosquatCond domain site = true ↔
        (includes domain (utf16 site) = true ∧ startsWith domain (utf16 site) = false)) ∧
    typosquatCond (utf16 "www.google.com") "google" = true ∧
    domainOf (utf16 "https://www.google.com") = utf16 "www.google.com" ∧
    added (fun s => typosquatStep (utf16 "www.google.com") s "google") ⟨0, [], []⟩ = 40 ∧
    (analyzeLink (utf16 "https://www.google.com")).score = 40 := by
  refine ⟨fun domain site => ?_, by decide, by decide, by decide, by decide⟩
  unfold typosquatCond
  rw [Bool.and_eq_true, Bool.and_eq_true, Bool.not_eq_true', and_iff_left_iff_imp]
  rintro ⟨-, h⟩
  rw [bne_iff_ne]
  rintro rfl
  have : startsWith (utf16 site ++ utf16 ".com") (utf16 site) = true := by
    rw [startsWith_iff]
    exact List.prefix_append _ _
  rw [this] at h
  exact absurd h (by decide)

/-! ### The default tip and the score -/

theorem foldl_typosquatStep_of_none (domain : JSString) (sites : List String) (st : Analysis)
    (h : ∀ site ∈ sites, typosquatCond domain site = false) :
    sites.foldl (typosquatStep domain) st = st := by
  induction sites generalizing st with
  | nil => rfl
  | cons site sites ih =>
    rw [List.foldl_cons]
    have h1 : typosquatStep domain st site = st := by
      unfold typosquatStep
      rw [if_neg]
      rw [h site (List.mem_cons_self _ _)]
      decide
    rw [h1]
    exact ih st fun x hx => h x (List.mem_cons_of_mem _ hx)

/-- C10: the default tip is rendered exactly when the final score is at most
10; a URL with neither the `http://` nor the `https://` prefix on which no
other rule fires gets the score 10, the protocol finding `unknown` of type
danger, and the default tip. -/
theorem defaultTip_iff_score_le_ten (url : JSString) :
    (defaultTip ∈ (analyzeLink url).tips ↔ (analyzeLink url).score ≤ 10) ∧
    (startsWith url (utf16 "http://") = false → startsWith url (utf16 "https://") = false →
      suspiciousTLDs.any (fun tld => endsWith (domainOf url) (utf16 tld)) = false →
      foundKeywords url = [] →
      (∀ site ∈ commonSites, typosquatCond (domainOf url) site = false) →
      url.length ≤ 100 →
        (analyzeLink url).score = 10 ∧
        (analyzeLink url).details
          = [⟨"تشفير الموقع", "غير معروف", "danger"⟩, ⟨"امتداد النطاق", "عادي", "safe"⟩] ∧
        (analyzeLink url).tips = [defaultTip]) := by
  constructor
  · have ht : (analyzeLink url).tips = renderTips (runRules url).tips := rfl
    have hs : (analyzeLink url).score = min (runRules url).score 100 := rfl
    obtain ⟨h1, h2, h3⟩ := tipsInv_runRules url
    rw [ht, hs]
    by_cases he : (runRules url).tips = []
    · rw [he, renderTips_nil]
      have := h1 he
      simp only [List.mem_singleton, true_iff]
      omega
    · rw [renderTips_of_ne_nil _ he]
      have := h2 he
      simp only [h3, false_iff]
      omega
  · intro hp hps ht hk hb hl
    have hrun : runRules url
        = ⟨10, [⟨"تشفير الموقع", "غير معروف", "danger"⟩, ⟨"امتداد النطاق", "عادي", "safe"⟩],
            []⟩ := by
      unfold runRules lengthCheck typosquatCheck
      rw [if_neg (by omega), foldl_typosquatStep_of_none _ _ _ hb]
      unfold keywordCheck tldCheck protocolCheck
      simp [hp, hps, ht, hk]
    unfold analyzeLink
    simp only [hrun]
    exact ⟨by decide, rfl, rfl⟩

/-- C10 at `example.com`: score 10, protocol unknown, default tip. -/
theorem defaultTip_iff_score_le_ten_witness :
    (defaultTip ∈ (analyzeLink (utf16 "example.com")).tips ↔
      (analyzeLink (utf16 "example.com")).score ≤ 10) ∧
    (analyzeLink (utf16 "example.com")).score = 10 ∧
    (analyzeLink (utf16 "example.com")).details
      = [⟨"تشفير الموقع", "غير معروف", "danger"⟩, ⟨"امتداد النطاق", "عادي", "safe"⟩] ∧
    (analyzeLink (utf16 "example.com")).tips = [defaultTip] :=
  ⟨(defaultTip_iff_score_le_ten (utf16 "example.com")).1,
    (defaultTip_iff_score_le_ten (utf16 "example.com")).2 (by decide) (by decide) (by decide)
      (by decide) (by decide) (by decide)⟩

end LinkShield
